import Mathlib

set_option allowUnsafeReducibility true in
attribute [semireducible] Rat.add Rat.mul Rat.inv Rat.sub Rat.ofScientific

deriving instance DecidableEq for Except

/-!
Verification development for the two analysis scripts of this repository:
`lhePlot.py` (LHE generator-level event loop) and `vplusjetPDFsyst.py`
(coffea NanoAOD processor with PDF-systematic weights).

Shallow embedding conventions:
* Python floats are modelled as `ℚ`.
* Library-provided four-vector kinematics (`.pt`, `.eta`, `.mass`,
  `deltar`/`delta_r`) are opaque functions supplied by a structure
  (`LKin` resp. `VKin`): the scripts call into the `vector`/`coffea`
  libraries for those, so the embedding is parametric in them, while
  four-vector addition (componentwise on `px,py,pz,E`) is concrete.
* A histogram is modelled by its list of fill records `(value, weight)`;
  binning is performed by the external histogram library and is not part
  of this repository's code.
* Python exceptions (attribute access on `None`, list index errors,
  awkward out-of-range column access) are modelled with `Except`.
-/

/-! ## Definitions -/

/-- A Cartesian four-vector, as stored on an LHE particle
(`px, py, pz, energy`).  Addition of the library's LorentzVectors is
componentwise on these coordinates. -/
structure Vec4 where
  px : ℚ
  py : ℚ
  pz : ℚ
  energy : ℚ
deriving DecidableEq, Repr

/-- Componentwise four-vector addition (`l.p4() + l2.p4()`). -/
def vadd (a b : Vec4) : Vec4 :=
  ⟨a.px + b.px, a.py + b.py, a.pz + b.pz, a.energy + b.energy⟩

/-- Library kinematics used by `lhePlot.py`: `pt`, `eta`, `mass` of a
four-vector and `deltar` between two four-vectors are computed by the
external vector library. -/
structure LKin where
  pt : Vec4 → ℚ
  eta : Vec4 → ℚ
  mass : Vec4 → ℚ
  deltaR : Vec4 → Vec4 → ℚ

/-- An LHE particle as exposed by `lhereader`: pdg id, status and the
four-momentum components used by `p4()`. -/
structure LHEParticle where
  pdgid : Int
  status : Int
  px : ℚ
  py : ℚ
  pz : ℚ
  energy : ℚ
deriving DecidableEq, Repr

/-- `p4()` of an LHE particle. -/
def p4 (x : LHEParticle) : Vec4 :=
  ⟨x.px, x.py, x.pz, x.energy⟩

/-- An LHE event: particle list and the list of event weights. -/
structure LHEEvent where
  particles : List LHEParticle
  weights : List ℚ
deriving DecidableEq, Repr

/-- A histogram collection: association list from observable name to the
list of `(value, weight)` fill records. -/
abbrev Hists := List (String × List (ℚ × ℚ))

/-- `histograms[k].fill(v, weight=w)`: append a fill record to the
histogram named `k` (no-op on names not present, which in Python would be
a `KeyError`; `analyze` only ever fills existing names). -/
def fillH (h : Hists) (k : String) (v w : ℚ) : Hists :=
  h.map (fun p => if p.1 = k then (p.1, p.2 ++ [(v, w)]) else p)

/-- Fill records of the histogram named `k` (first matching entry). -/
def getFills : Hists → String → List (ℚ × ℚ)
  | [], _ => []
  | p :: h, k => if p.1 = k then p.2 else getFills h k

/-- The 16 observable names of `setup_histograms`, in the insertion order
of the `bins` dictionary. -/
def observableNames : List String :=
  ["wei", "nlep", "lep_eta", "lep_pt", "dilep_m", "dilep_pt",
   "z_mass", "z_pt", "njet", "njet15", "jet_eta", "jet_pt",
   "jets_ht", "dijet_m", "dijet_pt", "dijet_dr"]

/-- `setup_histograms()`: one empty histogram per observable. -/
def setup_histograms : Hists :=
  observableNames.map (fun n => (n, ([] : List (ℚ × ℚ))))

/-- Charged leptons: particles with `abs(pdgid) in (11,13,15)`. -/
def chargedLeptons (e : LHEEvent) : List LHEParticle :=
  e.particles.filter (fun x =>
    decide (x.pdgid.natAbs = 11 ∨ x.pdgid.natAbs = 13 ∨ x.pdgid.natAbs = 15))

/-- Z bosons: particles with `pdgid == 23`. -/
def zBosons (e : LHEEvent) : List LHEParticle :=
  e.particles.filter (fun x => decide (x.pdgid = 23))

/-- Partons: `abs(pdgid) in (1,2,3,4,5,21)` and `status == 1`. -/
def partonJets (e : LHEEvent) : List LHEParticle :=
  e.particles.filter (fun x =>
    decide ((x.pdgid.natAbs = 1 ∨ x.pdgid.natAbs = 2 ∨ x.pdgid.natAbs = 3 ∨
             x.pdgid.natAbs = 4 ∨ x.pdgid.natAbs = 5 ∨ x.pdgid.natAbs = 21) ∧
            x.status = 1))

/-- Partons with additionally `p4().pt > 15`. -/
def partonJets15 (K : LKin) (e : LHEEvent) : List LHEParticle :=
  e.particles.filter (fun x =>
    decide ((x.pdgid.natAbs = 1 ∨ x.pdgid.natAbs = 2 ∨ x.pdgid.natAbs = 3 ∨
             x.pdgid.natAbs = 4 ∨ x.pdgid.natAbs = 5 ∨ x.pdgid.natAbs = 21) ∧
            x.status = 1 ∧ 15 < K.pt (p4 x)))

/-- The `v_p4` accumulation: sum of `l.p4()` over charged leptons with
`pt ≥ 1`, `None` when no lepton qualifies (the Python code tests the
accumulator's truthiness; an absent vector is `None`). -/
def sumLepP4 (K : LKin) (e : LHEEvent) : Option Vec4 :=
  (chargedLeptons e).foldl
    (fun acc l =>
      if K.pt (p4 l) < 1 then acc
      else
        match acc with
        | some v => some (vadd v (p4 l))
        | none => some (p4 l))
    none

/-- The `j_p4` accumulation: sum of `j.p4()` over all partons, `None`
when the event has no parton. -/
def sumJetP4 (e : LHEEvent) : Option Vec4 :=
  (partonJets e).foldl
    (fun acc j =>
      match acc with
      | some v => some (vadd v (p4 j))
      | none => some (p4 j))
    none

/-- The dilepton selection of `analyze`, stated positively: exactly two
charged leptons, and the four-momentum sum of the leptons with `pt ≥ 1`
exists and has `pt ∈ [250, 400]` and `mass ∈ [50, 130]`. -/
def dilepCutB (K : LKin) (e : LHEEvent) : Bool :=
  ((chargedLeptons e).length == 2) &&
    (match sumLepP4 K e with
     | none => false
     | some v =>
         decide (250 ≤ K.pt v ∧ K.pt v ≤ 400 ∧ 50 ≤ K.mass v ∧ K.mass v ≤ 130))

/-- Value filled into `dilep_m` (mass of the lepton sum; `0` when the sum
does not exist, in which case no fill happens). -/
def dilepMassVal (K : LKin) (e : LHEEvent) : ℚ :=
  match sumLepP4 K e with
  | some v => K.mass v
  | none => 0

/-- Value filled into `dilep_pt`. -/
def dilepPtVal (K : LKin) (e : LHEEvent) : ℚ :=
  match sumLepP4 K e with
  | some v => K.pt v
  | none => 0

/-- Errors of the event loop: attribute access on `None`
(`v_p4.pt` / `j_p4.pt` with no accumulated vector) and list indexing
(`event.weights[0]` on an empty weight list). -/
inductive AErr where
  | noneDeref
  | indexErr
deriving DecidableEq, Repr

/-- The three unconditional fills at the top of the loop body
(`nlep`, `njet`, `njet15`, each with weight 1). -/
def fillsPre (K : LKin) (h : Hists) (e : LHEEvent) : Hists :=
  fillH (fillH (fillH h "nlep" ((chargedLeptons e).length : ℚ) 1)
      "njet" ((partonJets e).length : ℚ) 1)
    "njet15" ((partonJets15 K e).length : ℚ) 1

/-- `for l in leptons:` fill `lep_eta` and `lep_pt`. -/
def lepLoop (K : LKin) (wei : ℚ) (h : Hists) (ls : List LHEParticle) : Hists :=
  ls.foldl (fun h l => fillH (fillH h "lep_eta" (K.eta (p4 l)) wei)
    "lep_pt" (K.pt (p4 l)) wei) h

/-- `for Z in Zs:` fill `z_mass` and `z_pt`. -/
def zLoop (K : LKin) (wei : ℚ) (h : Hists) (zs : List LHEParticle) : Hists :=
  zs.foldl (fun h z => fillH (fillH h "z_mass" (K.mass (p4 z)) wei)
    "z_pt" (K.pt (p4 z)) wei) h

/-- `for j in jets:` fill `jet_eta` and `jet_pt` (the `j_p4` accumulation
of the same loop is `sumJetP4`). -/
def jetLoop (K : LKin) (wei : ℚ) (h : Hists) (js : List LHEParticle) : Hists :=
  js.foldl (fun h j => fillH (fillH h "jet_eta" (K.eta (p4 j)) wei)
    "jet_pt" (K.pt (p4 j)) wei) h

/-- The `njet15 >= 2` block: dijet observables from the first two
entries of `jets15`. -/
def dijetBlock (K : LKin) (wei : ℚ) (h : Hists) (e : LHEEvent) : Hists :=
  if 2 ≤ (partonJets15 K e).length then
    match partonJets15 K e with
    | j1 :: j2 :: _ =>
        fillH (fillH (fillH h "dijet_dr" (K.deltaR (p4 j1) (p4 j2)) wei)
            "dijet_m" (K.mass (vadd (p4 j1) (p4 j2))) wei)
          "dijet_pt" (K.pt (vadd (p4 j1) (p4 j2))) wei
    | _ => h
  else h

/-- One iteration of the event loop of `analyze` (the body of
`for event in reader:`), returning the updated histogram collection or
the Python exception it raises. -/
def processEvent (K : LKin) (h : Hists) (e : LHEEvent) : Except AErr Hists :=
  let h1 := fillsPre K h e
  if (chargedLeptons e).length ≠ 2 then Except.ok h1
  else
    match sumLepP4 K e with
    | none => Except.error AErr.noneDeref
    | some v =>
        if K.pt v < 250 ∨ 400 < K.pt v then Except.ok h1
        else if K.mass v < 50 ∨ 130 < K.mass v then Except.ok h1
        else
          match e.weights with
          | [] => Except.error AErr.indexErr
          | wei :: _ =>
              let h2 := fillH h1 "wei" wei 1
              let h3 := fillH h2 "dilep_m" (K.mass v) wei
              let h4 := fillH h3 "dilep_pt" (K.pt v) wei
              let h5 := lepLoop K wei h4 (chargedLeptons e)
              let h6 := zLoop K wei h5 (zBosons e)
              let h7 := jetLoop K wei h6 (partonJets e)
              match sumJetP4 e with
              | none => Except.error AErr.noneDeref
              | some jv =>
                  Except.ok (dijetBlock K wei (fillH h7 "jets_ht" (K.pt jv) wei) e)

/-- The event loop folded over a list of events, an exception aborting
the fold. -/
def foldEvents (K : LKin) (h : Hists) : List LHEEvent → Except AErr Hists
  | [] => Except.ok h
  | e :: es => (processEvent K h e).bind (fun h' => foldEvents K h' es)

/-- `analyze`: fresh histograms, then the event loop. -/
def analyze (K : LKin) (events : List LHEEvent) : Except AErr Hists :=
  foldEvents K setup_histograms events

/-- A NanoAOD muon, with the fields the `goodmuon` cut and the dimuon
construction read. -/
structure Muon where
  pt : ℚ
  eta : ℚ
  pfRelIso04_all : ℚ
  dxy : ℚ
  dz : ℚ
  looseId : Bool
  charge : Int
deriving DecidableEq, Repr

/-- A NanoAOD electron, with the fields the `goodelectron` cut reads. -/
structure Electron where
  pt : ℚ
  eta : ℚ
  dxy : ℚ
  dz : ℚ
  miniPFRelIso_all : ℚ
  mvaFall17V2noIso : ℚ
  lostHits : Nat
deriving DecidableEq, Repr

/-- A NanoAOD jet, with the fields the jet cut reads. -/
structure Jet where
  pt : ℚ
  eta : ℚ
  isTight : Bool
deriving DecidableEq, Repr

/-- One event row of a NanoAOD chunk. -/
structure VEvent where
  genWeight : ℚ
  LHEPdfWeight : List ℚ
  LHE_Vpt : ℚ
  muons : List Muon
  electrons : List Electron
  jets : List Jet
  met_pt : ℚ
deriving DecidableEq, Repr

/-- Library kinematics used by `vplusjetPDFsyst.py`: invariant mass and
pt of a candidate pair and the delta-R metrics used by `nearest`, all
computed by the coffea/awkward vector library. -/
structure VKin where
  pairPt : Muon → Muon → ℚ
  pairMass : Muon → Muon → ℚ
  jetPairPt : Jet → Jet → ℚ
  jetPairMass : Jet → Jet → ℚ
  jetDeltaR : Jet → Jet → ℚ
  jetEleDR : Jet → Electron → ℚ
  jetMuDR : Jet → Muon → ℚ

/-- The `goodmuon` cut. -/
def goodmuon (m : Muon) : Bool :=
  decide (15 < m.pt ∧ |m.eta| < 2.4 ∧ m.pfRelIso04_all < 0.25 ∧
    m.looseId = true ∧ |m.dxy| < 0.05 ∧ |m.dz| < 0.1)

/-- `muons = muons[goodmuon]`. -/
def goodMuons (e : VEvent) : List Muon :=
  e.muons.filter goodmuon

/-- The `goodelectron` cut. -/
def goodelectron (el : Electron) : Bool :=
  decide (15 < el.pt ∧ |el.eta| < 2.5 ∧ |el.dxy| < 0.05 ∧ |el.dz| < 0.1 ∧
    el.lostHits < 2 ∧ el.miniPFRelIso_all < 0.4 ∧
    ((0 < el.mvaFall17V2noIso ∧ |el.eta| < 1.479) ∨
     (0.7 < el.mvaFall17V2noIso ∧ 1.479 < |el.eta| ∧ |el.eta| < 2.5)))

/-- `electrons = electrons[goodelectron]`. -/
def goodElectrons (e : VEvent) : List Electron :=
  e.electrons.filter goodelectron

/-- `ak.combinations(l, 2)`: the unordered pairs of a list, each in list
order. -/
def combPairs : List α → List (α × α)
  | [] => []
  | x :: xs => xs.map (fun y => (x, y)) ++ combPairs xs

/-- `ak.firsts(muons[goodmuon]).pt > 20` (line 98): `None` for an event
with no good muon; computed but never used by the selection. -/
def lead_muon_pt (e : VEvent) : Option Bool :=
  (goodMuons e).head?.map (fun m => decide (20 < m.pt))

/-- `dimuons = ak.combinations(muons, 2)` on the good muons. -/
def dimuons (e : VEvent) : List (Muon × Muon) :=
  combPairs (goodMuons e)

/-- `good_dimuons = dimuons[opposites & limits]`: opposite charges and
pair mass in `[60, 120)`. -/
def good_dimuons (K : VKin) (e : VEvent) : List (Muon × Muon) :=
  (dimuons e).filter (fun p =>
    decide (p.1.charge ≠ p.2.charge) &&
      decide (60 ≤ K.pairMass p.1 p.2 ∧ K.pairMass p.1 p.2 < 120))

/-- The jet kinematic/id cut (`pt > 30`, `|eta| < 2.5`, `isTight`). -/
def tightJets (e : VEvent) : List Jet :=
  e.jets.filter (fun j => decide (30 < j.pt ∧ |j.eta| < 2.5 ∧ j.isTight = true))

/-- Minimum of a list of rationals, `none` on the empty list
(the metric returned by `nearest` for an object with no neighbour). -/
def minQ : List ℚ → Option ℚ
  | [] => none
  | x :: xs =>
      match minQ xs with
      | none => some x
      | some y => some (min x y)

/-- Metric to the nearest object of `B` (`obj_A.nearest(obj_B,
return_metric=True)` for one element of `obj_A`). -/
def nearestDR (dist : α → β → ℚ) (a : α) (B : List β) : Option ℚ :=
  minQ (B.map (dist a))

/-- Per-object cleanliness: `ak.fill_none(objB_DR > drmin, True)` for one
element of `obj_A`. -/
def singleClean (dist : α → β → ℚ) (B : List β) (drmin : ℚ) (a : α) : Bool :=
  match nearestDR dist a B with
  | none => true
  | some d => decide (drmin < d)

/-- `isClean(obj_A, obj_B, drmin)`: the per-object boolean mask. -/
def isClean (dist : α → β → ℚ) (A : List α) (B : List β) (drmin : ℚ) :
    List Bool :=
  A.map (singleClean dist B drmin)

/-- Apply a boolean mask to a list (`jets[j_isclean]`). -/
def maskFilter : List α → List Bool → List α
  | [], _ => []
  | _ :: _, [] => []
  | a :: as, b :: bs => if b then a :: maskFilter as bs else maskFilter as bs

/-- `j_isclean = isClean(jets, electrons, 0.4) & isClean(jets, muons, 0.4)`
on the tight jets, against the good electrons and good muons. -/
def jetCleanMask (K : VKin) (e : VEvent) : List Bool :=
  List.zipWith (· && ·)
    (isClean K.jetEleDR (tightJets e) (goodElectrons e) 0.4)
    (isClean K.jetMuDR (tightJets e) (goodMuons e) 0.4)

/-- `good_jets = jets[j_isclean]`. -/
def good_jets (K : VKin) (e : VEvent) : List Jet :=
  maskFilter (tightJets e) (jetCleanMask K e)

/-- `two_lep = ak.num(good_dimuons) == 1`. -/
def two_lep (K : VKin) (e : VEvent) : Bool :=
  (good_dimuons K e).length == 1

/-- `two_jets = ak.num(good_jets) >= 2`. -/
def two_jets (K : VKin) (e : VEvent) : Bool :=
  decide (2 ≤ (good_jets K e).length)

/-- `full_selection = two_lep & two_jets`. -/
def full_selection (K : VKin) (e : VEvent) : Bool :=
  two_lep K e && two_jets K e

/-- `selected_events = events[full_selection]`. -/
def selectedEvents (K : VKin) (chunk : List VEvent) : List VEvent :=
  chunk.filter (full_selection K)

/-- The per-event list `(good_dimuons['i0'] + good_dimuons['i1']).pt`. -/
def eventVpt (K : VKin) (e : VEvent) : List ℚ :=
  (good_dimuons K e).map (fun p => K.pairPt p.1 p.2)

/-- The per-event list `(good_dimuons['i0'] + good_dimuons['i1']).mass`. -/
def eventVmass (K : VKin) (e : VEvent) : List ℚ :=
  (good_dimuons K e).map (fun p => K.pairMass p.1 p.2)

/-- Concatenation of per-element lists (`ak.flatten` of a mapped jagged
array). -/
def flatList (f : α → List β) : List α → List β
  | [] => []
  | a :: as => f a ++ flatList f as

/-- Error raised inside `Processor.process`: the awkward column access
`selected_events.LHEPdfWeight[:, p]` raises when some selected event has
fewer PDF weights than requested. -/
inductive PErr where
  | indexOutOfRange
deriving DecidableEq, Repr

/-- The output accumulator of one `process` call on one chunk, as plain
data: cutflow counters, the weight sum, and the per-histogram fill
records.  `dilep_pt` fills carry their `PDFwei` category string. -/
structure POutput where
  dataset : String
  cutflow_all_events : Nat
  cutflow_chunks : Nat
  cutflow_selected : Nat
  sumw : ℚ
  lheVptFills : List (ℚ × ℚ)
  weiFills : List (ℚ × ℚ)
  nlepFills : List (ℚ × ℚ)
  njet15Fills : List (ℚ × ℚ)
  dilepMFills : List (ℚ × ℚ)
  dilepPtFills : List (String × ℚ × ℚ)
  dijetMFills : List (ℚ × ℚ)
  dijetPtFills : List (ℚ × ℚ)
  dijetDrFills : List (ℚ × ℚ)
deriving DecidableEq, Repr

/-- Whether every PDF column access `LHEPdfWeight[:, p]`, `p = 0..31`, on
the selected events succeeds. -/
def pdfOk (K : VKin) (chunk : List VEvent) : Bool :=
  (selectedEvents K chunk).all (fun e => decide (32 ≤ e.LHEPdfWeight.length))

/-- The `PDFwei="Default"` fills of `dilep_pt`: flattened dimuon pt of
the selected events zipped with their `genWeight`. -/
def defaultDilepPt (K : VKin) (chunk : List VEvent) : List (String × ℚ × ℚ) :=
  (List.zip (flatList (eventVpt K) (selectedEvents K chunk))
      ((selectedEvents K chunk).map (fun e => e.genWeight))).map
    (fun vw => ("Default", vw.1, vw.2))

/-- The PDF-variation fills of `dilep_pt`: for each `p < 32`, category
`str(p)`, values the flattened dimuon pt, weights
`genWeight * (2 * LHEPdfWeight[:, p])` (the factor 2 is in the source:
`PdfWei = 2*selected_events.LHEPdfWeight[:,p]`). -/
def pdfDilepPt (K : VKin) (chunk : List VEvent) : List (String × ℚ × ℚ) :=
  flatList
    (fun p =>
      (List.zip (flatList (eventVpt K) (selectedEvents K chunk))
          ((selectedEvents K chunk).map
            (fun e => e.genWeight * (2 * e.LHEPdfWeight.getD p 0)))).map
        (fun vw => (toString p, vw.1, vw.2)))
    (List.range 32)

/-- The dijet observables of one selected event, from the two leading
good jets (`j_2l2j[:, 0]`, `j_2l2j[:, 1]`): `(mass, pt, delta_r)`.
Selected events have at least two good jets, so the no-jet branch is
unreachable. -/
def dijetOf (K : VKin) (e : VEvent) : ℚ × ℚ × ℚ :=
  match good_jets K e with
  | j1 :: j2 :: _ => (K.jetPairMass j1 j2, K.jetPairPt j1 j2, K.jetDeltaR j1 j2)
  | _ => (0, 0, 0)

/-- `Processor.process` on one chunk of events.  The numpy expression
`genWeight/np.abs(genWeight)` is modelled with rational division (whose
value at `genWeight = 0` is immaterial to every claim). -/
def processChunk (K : VKin) (ds : String) (chunk : List VEvent) :
    Except PErr POutput :=
  if pdfOk K chunk then
    Except.ok
      { dataset := ds
        cutflow_all_events := chunk.length
        cutflow_chunks := 1
        cutflow_selected := (selectedEvents K chunk).length
        sumw := (chunk.map (fun e => e.genWeight)).sum
        lheVptFills := chunk.map (fun e => (e.LHE_Vpt, e.genWeight))
        weiFills := chunk.map (fun e => (e.genWeight / |e.genWeight|, 1))
        nlepFills := chunk.map (fun e => (((goodMuons e).length : ℚ), 1))
        njet15Fills := chunk.map (fun e => (((good_jets K e).length : ℚ), 1))
        dilepMFills :=
          List.zip (flatList (eventVmass K) (selectedEvents K chunk))
            ((selectedEvents K chunk).map (fun e => e.genWeight))
        dilepPtFills := defaultDilepPt K chunk ++ pdfDilepPt K chunk
        dijetMFills :=
          (selectedEvents K chunk).map (fun e => ((dijetOf K e).1, e.genWeight))
        dijetPtFills :=
          (selectedEvents K chunk).map
            (fun e => ((dijetOf K e).2.1, e.genWeight))
        dijetDrFills :=
          (selectedEvents K chunk).map
            (fun e => ((dijetOf K e).2.2, e.genWeight)) }
  else Except.error PErr.indexOutOfRange

/-- The pickle blob written by `lhePlot.plot`: the serialized histogram
collection. -/
structure LBlob where
  data : Hists
deriving DecidableEq, Repr

/-- `pkl.dump` of the lhePlot histogram collection. -/
def lpklDump (h : Hists) : LBlob := ⟨h⟩

/-- `pkl.load` of a dumped lhePlot collection. -/
def lpklLoad (b : LBlob) : Hists := b.data

/-- A file write performed by `lhePlot.plot`. -/
inductive LWrite where
  | image (filepath : String)
  | pickleFile (filepath : String) (blob : LBlob)
deriving DecidableEq, Repr

/-- Whether a write is an image write. -/
def LWrite.isImage : LWrite → Bool
  | .image _ => true
  | .pickleFile _ _ => false

/-- `lhePlot.plot(histograms, fromPickles)`: one `savefig` per
observable, then (unless replotting from pickles) the pickle dump. -/
def lhe_plot (outdir : String) (histograms : Hists) (fromPickles : Bool) :
    List LWrite :=
  histograms.map (fun p => LWrite.image (outdir ++ "/" ++ p.1 ++ ".png")) ++
    (if fromPickles then []
     else [LWrite.pickleFile (outdir ++ "/Pickles.pkl") (lpklDump histograms)])

/-- `lhePlot.plotFromPickles(inputfile)`: reload the collection and plot
with `fromPickles=True`. -/
def lhe_plotFromPickles (outdir : String) (b : LBlob) : List LWrite :=
  lhe_plot outdir (lpklLoad b) true

/-- One entry of the processor output dictionary: a coffea `Hist`
(modelled by its fill records) or a non-histogram accumulator
(`cutflow`, `sumw`). -/
inductive VEntry where
  | histE (fills : List (ℚ × ℚ))
  | accE (val : ℚ)
deriving DecidableEq, Repr

/-- Whether an output entry is a coffea `Hist`. -/
def VEntry.isHist : VEntry → Bool
  | .histE _ => true
  | .accE _ => false

/-- The processor output dictionary passed to `vplusjetPDFsyst.plot`. -/
abbrev VColl := List (String × VEntry)

/-- The pickle blob written by `vplusjetPDFsyst.plot`. -/
structure VBlob where
  data : VColl
deriving DecidableEq, Repr

/-- `pkl.dump` of the processor output. -/
def vpklDump (c : VColl) : VBlob := ⟨c⟩

/-- `pkl.load` of a dumped processor output. -/
def vpklLoad (b : VBlob) : VColl := b.data

/-- A file write performed by `vplusjetPDFsyst.plot`. -/
inductive VWrite where
  | image (filepath : String)
  | pickleFile (filepath : String) (blob : VBlob)
deriving DecidableEq, Repr

/-- Whether a write is an image write. -/
def VWrite.isImage : VWrite → Bool
  | .image _ => true
  | .pickleFile _ _ => false

/-- `vplusjetPDFsyst.plot(histograms, outdir, fromPickles)`: entries that
are not coffea `Hist`s are skipped (`continue`); each `Hist` gets one
`savefig`; then (unless replotting) the pickle dump of the whole
dictionary. -/
def vplus_plot (outdir : String) (coll : VColl) (fromPickles : Bool) :
    List VWrite :=
  (coll.filter (fun p => p.2.isHist)).map
      (fun p => VWrite.image (outdir ++ "/" ++ p.1 ++ ".png")) ++
    (if fromPickles then []
     else [VWrite.pickleFile (outdir ++ "/Pickles.pkl") (vpklDump coll)])

/-- `vplusjetPDFsyst.plotFromPickles(inputfile, outdir)`. -/
def vplus_plotFromPickles (outdir : String) (b : VBlob) : List VWrite :=
  vplus_plot outdir (vpklLoad b) true

/-- Parsed arguments of `lhePlot.py`: `-o, --outdir` and the positional
`inputfile`. -/
structure LheOpts where
  outdir : String
  inputfile : String
deriving DecidableEq, Repr

/-- The input file processed by `lhePlot.py` (the positional argument). -/
def lheMainInput (o : LheOpts) : String := o.inputfile

/-- The directory receiving images and pickle for `lhePlot.py`. -/
def lheMainOutdir (o : LheOpts) : String := o.outdir

/-- Parsed arguments of `vplusjetPDFsyst.py`: `-o, --outdir` and the
optional `--pkl`.  There is no input-selection argument. -/
structure VOpts where
  outdir : String
  pkl : Option String
deriving DecidableEq, Repr

/-- The directory receiving images and pickle for `vplusjetPDFsyst.py`. -/
def vplusMainOutdir (o : VOpts) : String := o.outdir

/-- The optional pickle file replotted by `vplusjetPDFsyst.py`. -/
def vplusMainPkl (o : VOpts) : Option String := o.pkl

/-- The ntuple locations of `vplusjetPDFsyst.py`'s `__main__`: the
`file_list` dictionary is built from string literals in the script
(the last assignments of `ntuples_location`, `p2017_DY1_250_400` and
`p2017_DY2_250_400`), independent of the parsed options. -/
def vplusNtupleDirs (_o : VOpts) : List (String × String) :=
  [("2017_DY1J",
    "root://grid-cms-xrootd.physik.rwth-aachen.de//store/user/andrey/DYCOPY_NanoV7/" ++
      "/DY1JetsToLL_M-50_LHEZpT_250-400_TuneCP5_13TeV-amcnloFXFX-pythia8/NANOAODSIM/PU2017_12Apr2018_Nano02Apr2020_102X_mc2017_realistic_v8-v1/100000/"),
   ("2017_DY2J",
    "root://grid-cms-xrootd.physik.rwth-aachen.de//store/user/andrey/DYCOPY_NanoV7/" ++
      "/DY2JetsToLL_M-50_LHEZpT_250-400_TuneCP5_13TeV-amcnloFXFX-pythia8/NANOAODSIM/PU2017_12Apr2018_Nano02Apr2020_102X_mc2017_realistic_v8-v1/100000/")]

/-- A constant kinematics library for `lhePlot` witnesses. -/
def constLKin (ptv etav massv : ℚ) : LKin :=
  ⟨fun _ => ptv, fun _ => etav, fun _ => massv, fun _ _ => 1⟩

/-- Kinematics whose `pt` is 300 and `mass` is 90 (inside both windows). -/
def Kc2 : LKin := constLKin 300 1 90

/-- An electron with `pdgid = 11`. -/
def lepA : LHEParticle := ⟨11, 1, 1, 0, 0, 1⟩

/-- A positron with `pdgid = -11`. -/
def lepB : LHEParticle := ⟨-11, 1, 1, 0, 0, 1⟩

/-- A status-1 gluon parton. -/
def partonG : LHEParticle := ⟨21, 1, 1, 0, 0, 1⟩

/-- An event with two charged leptons passing all dilepton cuts (under
`Kc2`) and one parton. -/
def evC2 : LHEEvent := ⟨[lepA, lepB, partonG], [3]⟩

/-- An event with two charged leptons passing all dilepton cuts (under
`Kc2`) and no parton at all. -/
def evC9 : LHEEvent := ⟨[lepA, lepB], [3]⟩

/-- A constant kinematics library for `vplusjetPDFsyst` witnesses:
dimuon pt `ppt`, dimuon mass `pmass`, all jet-lepton distances `dr`. -/
def constVKin (ppt pmass dr : ℚ) : VKin :=
  ⟨fun _ _ => ppt, fun _ _ => pmass, fun _ _ => 1, fun _ _ => 1,
   fun _ _ => 1, fun _ _ => dr, fun _ _ => dr⟩

/-- Dimuon pt 100, mass 90, every jet far from every lepton. -/
def KC : VKin := constVKin 100 90 10

/-- A good muon of charge `+1`. -/
def muP : Muon := ⟨30, 0, 0, 0, 0, true, 1⟩

/-- A good muon of charge `-1`. -/
def muM : Muon := ⟨30, 0, 0, 0, 0, true, -1⟩

/-- A tight central jet. -/
def jetA : Jet := ⟨40, 1, true⟩

/-- Another tight central jet. -/
def jetB : Jet := ⟨50, -1, true⟩

/-- A fully selected NanoAOD event: one opposite-charge good dimuon,
two clean tight jets, `genWeight = 1`, all 32 PDF weights equal to 1. -/
def evC1 : VEvent := ⟨1, List.replicate 32 1, 300, [muP, muM], [], [jetA, jetB], 10⟩

/-- A jet passes the full jet selection: kinematic/id cut and cleanliness
against the good electrons and good muons. -/
def jetPasses (K : VKin) (e : VEvent) (j : Jet) : Bool :=
  decide (30 < j.pt ∧ |j.eta| < 2.5 ∧ j.isTight = true) &&
    (singleClean K.jetEleDR (goodElectrons e) 0.4 j &&
      singleClean K.jetMuDR (goodMuons e) 0.4 j)

/-- The selection in the words of the claim: exactly one opposite-charge
pair of good muons with invariant mass in `[60, 120)`, and at least two
jets passing the kinematic/id cut and clean against the good leptons. -/
def specSelection (K : VKin) (e : VEvent) : Prop :=
  ((combPairs (goodMuons e)).filter (fun p =>
      decide (p.1.charge ≠ p.2.charge) &&
        decide (60 ≤ K.pairMass p.1 p.2 ∧ K.pairMass p.1 p.2 < 120))).length = 1 ∧
  2 ≤ (e.jets.filter (jetPasses K e)).length

/-- Dimuon pt 500 (outside every commented window), mass 90. -/
def K3 : VKin := constVKin 500 90 10

/-- A good muon with pt 16 (below the unused 20 GeV leading cut). -/
def mu16 : Muon := ⟨16, 0, 0, 0, 0, true, 1⟩

/-- A good muon with pt 17, opposite charge. -/
def mu17 : Muon := ⟨17, 0, 0, 0, 0, true, -1⟩

/-- A fully selected event whose leading good muon fails `pt > 20`. -/
def ev3 : VEvent := ⟨1, List.replicate 32 1, 300, [mu16, mu17], [], [jetA, jetB], 10⟩

/-- An LHE event passing the dilepton cuts (under `Kc2`) with an empty
weight list. -/
def evW8 : LHEEvent := ⟨[lepA, lepB], []⟩

/-- A fully selected NanoAOD event with only one PDF weight. -/
def evShortPdf : VEvent := ⟨1, [1], 300, [muP, muM], [], [jetA, jetB], 10⟩

/-- The empty processor output (only used as a `getD` fallback). -/
def emptyPOutput : POutput := ⟨"", 0, 0, 0, 0, [], [], [], [], [], [], [], [], []⟩

/-- The concrete histogram collection after processing `evC2`. -/
def resC2 : Hists := (processEvent Kc2 setup_histograms evC2).toOption.getD []

/-- The concrete processor output on the one-event chunk `[evC1]`. -/
def resC1 : POutput := (processChunk KC "ds" [evC1]).toOption.getD emptyPOutput

/-! ## Theorems -/

theorem getFills_fillH_ne (h : Hists) {k k' : String} (v w : ℚ)
    (hne : k ≠ k') : getFills (fillH h k' v w) k = getFills h k := by
  induction h with
  | nil => rfl
  | cons p t ih =>
      have hpk : p.1 = k' → ¬ p.1 = k := fun hp hh => hne (hh ▸ hp ▸ rfl)
      by_cases hp : p.1 = k'
      · simp only [fillH, List.map_cons, if_pos hp, getFills, if_neg (hpk hp)]
        exact ih
      · simp only [fillH, List.map_cons, if_neg hp, getFills]
        by_cases hq : p.1 = k
        · simp only [if_pos hq]
        · simp only [if_neg hq]
          exact ih

theorem getFills_fillH_mem (h : Hists) {k : String} (v w : ℚ)
    (hk : k ∈ h.map Prod.fst) :
    getFills (fillH h k v w) k = getFills h k ++ [(v, w)] := by
  induction h with
  | nil => simp at hk
  | cons p t ih =>
      by_cases hp : p.1 = k
      · simp only [fillH, List.map_cons, if_pos hp, getFills]
      · simp only [fillH, List.map_cons, if_neg hp, getFills, if_neg hp]
        refine ih ?_
        rcases (List.mem_map.mp hk) with ⟨q, hq, hfst⟩
        rcases List.mem_cons.mp hq with hq1 | hq2
        · exact absurd (hq1 ▸ hfst) hp
        · exact List.mem_map.mpr ⟨q, hq2, hfst⟩

theorem keys_fillH (h : Hists) (k : String) (v w : ℚ) :
    (fillH h k v w).map Prod.fst = h.map Prod.fst := by
  induction h with
  | nil => rfl
  | cons p t ih =>
      by_cases hp : p.1 = k <;> simp [fillH, hp] at ih ⊢ <;> simpa using ih

theorem mem_keys_fillH {h : Hists} {k : String} (k' : String) (v w : ℚ)
    (hk : k ∈ h.map Prod.fst) : k ∈ (fillH h k' v w).map Prod.fst := by
  rw [keys_fillH]; exact hk

/-- A histogram-collection function preserved by every step of a fold is
preserved by the fold. -/
theorem foldl_preserve {γ : Type} (f : Hists → γ) (g : Hists → α → Hists)
    (hg : ∀ h a, f (g h a) = f h) :
    ∀ (l : List α) (h : Hists), f (l.foldl g h) = f h := by
  intro l
  induction l with
  | nil => intro h; rfl
  | cons a t ih => intro h; rw [List.foldl_cons, ih, hg]

theorem getFills_lepLoop {k : String} (K : LKin) (wei : ℚ) (h : Hists)
    (ls : List LHEParticle) (h1 : k ≠ "lep_eta") (h2 : k ≠ "lep_pt") :
    getFills (lepLoop K wei h ls) k = getFills h k :=
  foldl_preserve (fun h => getFills h k) _
    (fun h _ => (getFills_fillH_ne _ _ _ h2).trans (getFills_fillH_ne _ _ _ h1))
    ls h

theorem getFills_zLoop {k : String} (K : LKin) (wei : ℚ) (h : Hists)
    (zs : List LHEParticle) (h1 : k ≠ "z_mass") (h2 : k ≠ "z_pt") :
    getFills (zLoop K wei h zs) k = getFills h k :=
  foldl_preserve (fun h => getFills h k) _
    (fun h _ => (getFills_fillH_ne _ _ _ h2).trans (getFills_fillH_ne _ _ _ h1))
    zs h

theorem getFills_jetLoop {k : String} (K : LKin) (wei : ℚ) (h : Hists)
    (js : List LHEParticle) (h1 : k ≠ "jet_eta") (h2 : k ≠ "jet_pt") :
    getFills (jetLoop K wei h js) k = getFills h k :=
  foldl_preserve (fun h => getFills h k) _
    (fun h _ => (getFills_fillH_ne _ _ _ h2).trans (getFills_fillH_ne _ _ _ h1))
    js h

theorem getFills_dijetBlock {k : String} (K : LKin) (wei : ℚ) (h : Hists)
    (e : LHEEvent) (h1 : k ≠ "dijet_dr") (h2 : k ≠ "dijet_m")
    (h3 : k ≠ "dijet_pt") :
    getFills (dijetBlock K wei h e) k = getFills h k := by
  unfold dijetBlock
  split
  · split
    · rw [getFills_fillH_ne _ _ _ h3, getFills_fillH_ne _ _ _ h2,
        getFills_fillH_ne _ _ _ h1]
    · rfl
  · rfl

theorem getFills_fillsPre {k : String} (K : LKin) (h : Hists) (e : LHEEvent)
    (h1 : k ≠ "nlep") (h2 : k ≠ "njet") (h3 : k ≠ "njet15") :
    getFills (fillsPre K h e) k = getFills h k := by
  unfold fillsPre
  rw [getFills_fillH_ne _ _ _ h3, getFills_fillH_ne _ _ _ h2,
    getFills_fillH_ne _ _ _ h1]

theorem keys_lepLoop (K : LKin) (wei : ℚ) (h : Hists) (ls : List LHEParticle) :
    (lepLoop K wei h ls).map Prod.fst = h.map Prod.fst :=
  foldl_preserve (fun h => h.map Prod.fst) _
    (fun h _ => (keys_fillH _ _ _ _).trans (keys_fillH _ _ _ _)) ls h

theorem keys_zLoop (K : LKin) (wei : ℚ) (h : Hists) (zs : List LHEParticle) :
    (zLoop K wei h zs).map Prod.fst = h.map Prod.fst :=
  foldl_preserve (fun h => h.map Prod.fst) _
    (fun h _ => (keys_fillH _ _ _ _).trans (keys_fillH _ _ _ _)) zs h

theorem keys_jetLoop (K : LKin) (wei : ℚ) (h : Hists) (js : List LHEParticle) :
    (jetLoop K wei h js).map Prod.fst = h.map Prod.fst :=
  foldl_preserve (fun h => h.map Prod.fst) _
    (fun h _ => (keys_fillH _ _ _ _).trans (keys_fillH _ _ _ _)) js h

theorem keys_dijetBlock (K : LKin) (wei : ℚ) (h : Hists) (e : LHEEvent) :
    (dijetBlock K wei h e).map Prod.fst = h.map Prod.fst := by
  unfold dijetBlock
  split
  · split
    · rw [keys_fillH, keys_fillH, keys_fillH]
    · rfl
  · rfl

theorem keys_fillsPre (K : LKin) (h : Hists) (e : LHEEvent) :
    (fillsPre K h e).map Prod.fst = h.map Prod.fst := by
  unfold fillsPre
  rw [keys_fillH, keys_fillH, keys_fillH]

/-- Each successful loop iteration of `analyze` preserves the key set of
the histogram collection (fills only existing histograms, never adds or
removes one). -/
theorem keys_processEvent {K : LKin} {h : Hists} {e : LHEEvent} {h' : Hists}
    (hok : processEvent K h e = Except.ok h') :
    h'.map Prod.fst = h.map Prod.fst := by
  unfold processEvent at hok
  split at hok
  · cases hok; exact keys_fillsPre _ _ _
  · split at hok
    · cases hok
    · split at hok
      · cases hok; exact keys_fillsPre _ _ _
      · split at hok
        · cases hok; exact keys_fillsPre _ _ _
        · split at hok
          · cases hok
          · split at hok
            · cases hok
            · cases hok
              rw [keys_dijetBlock, keys_fillH, keys_jetLoop, keys_zLoop,
                keys_lepLoop, keys_fillH, keys_fillH, keys_fillH, keys_fillsPre]

/-- C2 core: one loop iteration appends a fill record to `dilep_m` and
`dilep_pt` exactly when the dilepton selection holds, with the event's
first weight, and appends nothing to them otherwise. -/
theorem C2_dilepton_fill_exact (K : LKin) (h : Hists) (e : LHEEvent) (h' : Hists)
    (hkeys : h.map Prod.fst = observableNames)
    (hok : processEvent K h e = Except.ok h') :
    getFills h' "dilep_m" =
      getFills h "dilep_m" ++
        (if dilepCutB K e then [(dilepMassVal K e, e.weights.headD 0)] else []) ∧
    getFills h' "dilep_pt" =
      getFills h "dilep_pt" ++
        (if dilepCutB K e then [(dilepPtVal K e, e.weights.headD 0)] else []) := by
  unfold processEvent at hok
  split at hok
  · next hn =>
      cases hok
      have hb : ((chargedLeptons e).length == 2) = false := by simpa using hn
      have hcut : dilepCutB K e = false := by simp [dilepCutB, hb]
      rw [hcut]
      refine ⟨?_, ?_⟩
      · rw [getFills_fillsPre K h e (by decide) (by decide) (by decide)]; simp
      · rw [getFills_fillsPre K h e (by decide) (by decide) (by decide)]; simp
  · next hn =>
      split at hok
      · cases hok
      · next v hsum =>
          split at hok
          · next hpt =>
              cases hok
              have hnc : ¬(250 ≤ K.pt v ∧ K.pt v ≤ 400 ∧
                  50 ≤ K.mass v ∧ K.mass v ≤ 130) := by
                rcases hpt with hlt | hgt
                · exact fun hc => absurd hc.1 (not_le.mpr hlt)
                · exact fun hc => absurd hc.2.1 (not_le.mpr hgt)
              have hcut : dilepCutB K e = false := by
                simp [dilepCutB, hsum, hnc]
              rw [hcut]
              refine ⟨?_, ?_⟩
              · rw [getFills_fillsPre K h e (by decide) (by decide) (by decide)]
                simp
              · rw [getFills_fillsPre K h e (by decide) (by decide) (by decide)]
                simp
          · next hpt =>
              split at hok
              · next hmass =>
                  cases hok
                  have hnc : ¬(250 ≤ K.pt v ∧ K.pt v ≤ 400 ∧
                      50 ≤ K.mass v ∧ K.mass v ≤ 130) := by
                    rcases hmass with hlt | hgt
                    · exact fun hc => absurd hc.2.2.1 (not_le.mpr hlt)
                    · exact fun hc => absurd hc.2.2.2 (not_le.mpr hgt)
                  have hcut : dilepCutB K e = false := by
                    simp [dilepCutB, hsum, hnc]
                  rw [hcut]
                  refine ⟨?_, ?_⟩
                  · rw [getFills_fillsPre K h e (by decide) (by decide) (by decide)]
                    simp
                  · rw [getFills_fillsPre K h e (by decide) (by decide) (by decide)]
                    simp
              · next hmass =>
                  split at hok
                  · cases hok
                  · next wei rest hw =>
                      split at hok
                      · cases hok
                      · next jv hjp =>
                          cases hok
                          have h2 : (chargedLeptons e).length = 2 :=
                            not_not.mp hn
                          push_neg at hpt hmass
                          have hcut : dilepCutB K e = true := by
                            simp [dilepCutB, hsum, h2, hpt.1, hpt.2, hmass.1,
                              hmass.2]
                          have hmassval : dilepMassVal K e = K.mass v := by
                            simp [dilepMassVal, hsum]
                          have hptval : dilepPtVal K e = K.pt v := by
                            simp [dilepPtVal, hsum]
                          have hhead : e.weights.headD 0 = wei := by
                            rw [hw]; rfl
                          have hkm : ("dilep_m" : String) ∈
                              (fillH (fillH (fillsPre K h e) "wei" wei 1)
                                "dilep_m" (K.mass v) wei |>.map Prod.fst) := by
                            rw [keys_fillH, keys_fillH, keys_fillsPre, hkeys]
                            decide
                          have hkm0 : ("dilep_m" : String) ∈
                              ((fillH (fillsPre K h e) "wei" wei 1).map
                                Prod.fst) := by
                            rw [keys_fillH, keys_fillsPre, hkeys]; decide
                          have hkp : ("dilep_pt" : String) ∈
                              ((fillH (fillH (fillsPre K h e) "wei" wei 1)
                                "dilep_m" (K.mass v) wei).map Prod.fst) := by
                            rw [keys_fillH, keys_fillH, keys_fillsPre, hkeys]
                            decide
                          rw [hcut, hmassval, hptval, hhead]
                          refine ⟨?_, ?_⟩
                          · rw [getFills_dijetBlock _ _ _ _ (by decide)
                                (by decide) (by decide),
                              getFills_fillH_ne _ _ _ (by decide),
                              getFills_jetLoop _ _ _ _ (by decide) (by decide),
                              getFills_zLoop _ _ _ _ (by decide) (by decide),
                              getFills_lepLoop _ _ _ _ (by decide) (by decide),
                              getFills_fillH_ne _ _ _ (by decide),
                              getFills_fillH_mem _ _ _ hkm0,
                              getFills_fillH_ne _ _ _ (by decide),
                              getFills_fillsPre K h e (by decide) (by decide)
                                (by decide)]
                            simp
                          · rw [getFills_dijetBlock _ _ _ _ (by decide)
                                (by decide) (by decide),
                              getFills_fillH_ne _ _ _ (by decide),
                              getFills_jetLoop _ _ _ _ (by decide) (by decide),
                              getFills_zLoop _ _ _ _ (by decide) (by decide),
                              getFills_lepLoop _ _ _ _ (by decide) (by decide),
                              getFills_fillH_mem _ _ _ hkp,
                              getFills_fillH_ne _ _ _ (by decide),
                              getFills_fillH_ne _ _ _ (by decide),
                              getFills_fillsPre K h e (by decide) (by decide)
                                (by decide)]
                            simp

/-- Folding the event loop over an appended list is the bind of the two
folds (so an exception in the first part aborts everything after it). -/
theorem foldEvents_append (K : LKin) (h : Hists) (l1 l2 : List LHEEvent) :
    foldEvents K h (l1 ++ l2) =
      (foldEvents K h l1).bind (fun h' => foldEvents K h' l2) := by
  induction l1 generalizing h with
  | nil => rfl
  | cons e t ih =>
      simp only [List.cons_append, foldEvents]
      cases processEvent K h e with
      | error err => rfl
      | ok h1 => exact ih h1

/-- The key set is invariant along the whole event loop. -/
theorem keys_foldEvents {K : LKin} {h0 h : Hists} {es : List LHEEvent}
    (hok : foldEvents K h0 es = Except.ok h) :
    h.map Prod.fst = h0.map Prod.fst := by
  induction es generalizing h0 with
  | nil => cases hok; rfl
  | cons e t ih =>
      unfold foldEvents at hok
      cases hpe : processEvent K h0 e with
      | error err => rw [hpe] at hok; cases hok
      | ok h1 =>
          rw [hpe] at hok
          exact (ih hok).trans (keys_processEvent hpe)

/-- The key set of the fresh collection is the 16 observable names. -/
theorem keys_setup : setup_histograms.map Prod.fst = observableNames := by
  decide

theorem minQ_eq_none_iff (l : List ℚ) : minQ l = none ↔ l = [] := by
  cases l with
  | nil => simp [minQ]
  | cons x xs =>
      simp only [minQ]
      cases minQ xs <;> simp

theorem nearestDR_eq_none_iff {dist : α → β → ℚ} {a : α} {B : List β} :
    nearestDR dist a B = none ↔ B = [] := by
  unfold nearestDR
  rw [minQ_eq_none_iff]
  simp

theorem isClean_getD {dist : α → β → ℚ} {A : List α} (B : List β)
    (drmin : ℚ) {i : Nat} (hi : i < A.length) :
    (isClean dist A B drmin).getD i false =
      singleClean dist B drmin (A.get ⟨i, hi⟩) := by
  unfold isClean
  rw [List.getD_eq_getElem?_getD, List.getElem?_map,
    List.getElem?_eq_getElem hi]
  rfl

theorem isClean_empty (dist : α → β → ℚ) (A : List α) (drmin : ℚ) :
    isClean dist A [] drmin = List.replicate A.length true := by
  unfold isClean singleClean
  induction A with
  | nil => rfl
  | cons a t ih => simpa [nearestDR, minQ, List.replicate] using ih

theorem zipWith_and_map (f g : α → Bool) (l : List α) :
    List.zipWith (· && ·) (l.map f) (l.map g) = l.map (fun a => f a && g a) := by
  induction l with
  | nil => rfl
  | cons a t ih => simpa using ih

theorem maskFilter_map (pred : α → Bool) (l : List α) :
    maskFilter l (l.map pred) = l.filter pred := by
  induction l with
  | nil => rfl
  | cons a t ih =>
      by_cases hp : pred a
      · simp [maskFilter, List.filter_cons, hp, ih]
      · simp only [List.map_cons, maskFilter, Bool.not_eq_true] at *
        simp [hp, List.filter_cons, ih]

theorem filter_filter_and (p q : α → Bool) (l : List α) :
    (l.filter p).filter q = l.filter (fun a => p a && q a) := by
  induction l with
  | nil => rfl
  | cons a t ih =>
      by_cases hp : p a <;> by_cases hq : q a <;>
        simp [List.filter_cons, hp, hq, ih]

theorem good_jets_eq_filter (K : VKin) (e : VEvent) :
    good_jets K e = e.jets.filter (jetPasses K e) := by
  unfold good_jets jetCleanMask
  rw [show isClean K.jetEleDR (tightJets e) (goodElectrons e) 0.4 =
      (tightJets e).map (singleClean K.jetEleDR (goodElectrons e) 0.4) from rfl,
    show isClean K.jetMuDR (tightJets e) (goodMuons e) 0.4 =
      (tightJets e).map (singleClean K.jetMuDR (goodMuons e) 0.4) from rfl,
    zipWith_and_map, maskFilter_map]
  unfold tightJets
  rw [filter_filter_and]
  rfl

theorem flatList_mem {f : α → List β} {l : List α} {a : α} {b : β}
    (ha : a ∈ l) (hb : b ∈ f a) : b ∈ flatList f l := by
  induction l with
  | nil => cases ha
  | cons x t ih =>
      rcases List.mem_cons.mp ha with h1 | h2
      · exact List.mem_append_left _ (h1 ▸ hb)
      · exact List.mem_append_right _ (ih h2)

theorem selected_dimuon_count {K : VKin} {chunk : List VEvent} {e : VEvent}
    (he : e ∈ selectedEvents K chunk) : (good_dimuons K e).length = 1 := by
  have hsel := (List.mem_filter.mp he).2
  unfold full_selection two_lep at hsel
  rcases Bool.and_eq_true_iff.mp hsel with ⟨h1, _⟩
  exact beq_iff_eq.mp h1

theorem eventVpt_singleton {K : VKin} {e : VEvent}
    (h1 : (good_dimuons K e).length = 1) :
    eventVpt K e = [(eventVpt K e).headD 0] := by
  unfold eventVpt
  rcases List.length_eq_one.mp h1 with ⟨pq, hpq⟩
  rw [hpq]
  rfl

theorem flatList_eventVpt {K : VKin} (l : List VEvent)
    (hall : ∀ e ∈ l, (good_dimuons K e).length = 1) :
    flatList (eventVpt K) l = l.map (fun e => (eventVpt K e).headD 0) := by
  induction l with
  | nil => rfl
  | cons e t ih =>
      show eventVpt K e ++ flatList (eventVpt K) t = _
      rw [eventVpt_singleton (hall e (List.mem_cons_self e t)),
        ih (fun e' he' => hall e' (List.mem_cons_of_mem e he'))]
      rfl

theorem zip_map_map (f : α → β) (g : α → γ) (l : List α) :
    List.zip (l.map f) (l.map g) = l.map (fun a => (f a, g a)) := by
  induction l with
  | nil => rfl
  | cons a t ih => simpa using ih

/-- C10: `isClean(obj_A, obj_B, drmin)` returns, for every object in
`obj_A`, `True` exactly when its metric to the nearest object of `obj_B`
is greater than `drmin` or when no nearest object exists (the missing
metric is filled with `True`); no nearest object exists exactly when
`obj_B` is empty, so with empty `obj_B` every object of `obj_A` is
clean. -/
theorem C10_isClean_characterisation {α β : Type} (dist : α → β → ℚ)
    (A : List α) (B : List β) (drmin : ℚ) (i : Nat) (hi : i < A.length) :
    ((isClean dist A B drmin).getD i false = true ↔
      (nearestDR dist (A.get ⟨i, hi⟩) B = none ∨
        ∃ d, nearestDR dist (A.get ⟨i, hi⟩) B = some d ∧ drmin < d)) ∧
    (nearestDR dist (A.get ⟨i, hi⟩) B = none ↔ B = []) ∧
    isClean dist A [] drmin = List.replicate A.length true := by
  refine ⟨?_, nearestDR_eq_none_iff, isClean_empty dist A drmin⟩
  rw [isClean_getD B drmin hi]
  unfold singleClean
  cases hn : nearestDR dist (A.get ⟨i, hi⟩) B with
  | none => simp
  | some d => simp [hn]

/-- C10 witness: object 0 of a two-jet list against one electron at
distance 10 is clean, and against an empty list is clean. -/
theorem C10_isClean_witness :
    ((isClean KC.jetEleDR [jetA, jetB] ([] : List Electron) 0.4).getD 0 false
        = true ↔
      (nearestDR KC.jetEleDR ([jetA, jetB].get ⟨0, by decide⟩) [] = none ∨
        ∃ d, nearestDR KC.jetEleDR ([jetA, jetB].get ⟨0, by decide⟩) [] =
          some d ∧ (0.4 : ℚ) < d)) ∧
    (nearestDR KC.jetEleDR ([jetA, jetB].get ⟨0, by decide⟩) [] = none ↔
      ([] : List Electron) = []) ∧
    isClean KC.jetEleDR [jetA, jetB] ([] : List Electron) 0.4 =
      List.replicate ([jetA, jetB] : List Jet).length true :=
  C10_isClean_characterisation KC.jetEleDR [jetA, jetB] [] 0.4 0 (by decide)

/-- C3: an event enters `full_selection` exactly when it has exactly one
opposite-charge good-muon pair with mass in `[60, 120)` and at least two
clean tight jets with `pt > 30` and `|eta| < 2.5`; the `lead_muon_pt`
quantity of line 98 and the dilepton pt/mass windows (commented out in
the source) have no effect: `ev3` is selected although its leading good
muon fails `pt > 20` and its dimuon pt `500` lies outside `[260, 390]`. -/
theorem C3_full_selection_characterisation :
    (∀ (K : VKin) (e : VEvent), full_selection K e = true ↔ specSelection K e) ∧
    (full_selection K3 ev3 = true ∧ lead_muon_pt ev3 = some false ∧
      eventVpt K3 ev3 = [500]) := by
  constructor
  · intro K e
    unfold specSelection
    rw [← good_jets_eq_filter]
    simp [full_selection, two_lep, two_jets, good_dimuons, dimuons]
  · exact ⟨by decide, by decide, by decide⟩

/-- C2 witness: the concrete event `evC2` passes all dilepton cuts under
`Kc2`, and one loop iteration from the fresh collection appends exactly
one record to each dilepton histogram. -/
theorem C2_dilepton_witness :
    getFills resC2 "dilep_m" = getFills setup_histograms "dilep_m" ++
      (if dilepCutB Kc2 evC2 then
        [(dilepMassVal Kc2 evC2, evC2.weights.headD 0)] else []) ∧
    getFills resC2 "dilep_pt" = getFills setup_histograms "dilep_pt" ++
      (if dilepCutB Kc2 evC2 then
        [(dilepPtVal Kc2 evC2, evC2.weights.headD 0)] else []) :=
  C2_dilepton_fill_exact Kc2 setup_histograms evC2 resC2 (by decide) (by decide)

/-- C9: an event that passes the dilepton selection, has a weight, and
contains zero status-1 partons makes the `jets_ht` fill dereference the
never-assigned `j_p4`, so the loop iteration (and with it `analyze`)
raises instead of skipping the event. -/
theorem C9_no_parton_crash (K : LKin) (h : Hists) (e : LHEEvent) (v : Vec4)
    (rest : List LHEEvent)
    (hlen : (chargedLeptons e).length = 2)
    (hsum : sumLepP4 K e = some v)
    (hpt : 250 ≤ K.pt v ∧ K.pt v ≤ 400)
    (hmass : 50 ≤ K.mass v ∧ K.mass v ≤ 130)
    (hw : e.weights ≠ [])
    (hjets : partonJets e = []) :
    processEvent K h e = Except.error AErr.noneDeref ∧
    foldEvents K h (e :: rest) = Except.error AErr.noneDeref := by
  have hpe : processEvent K h e = Except.error AErr.noneDeref := by
    unfold processEvent
    rw [if_neg (by rw [hlen]; exact not_not_intro rfl)]
    simp only [hsum]
    rw [if_neg (by
      rintro (hlt | hgt)
      · exact absurd hpt.1 (not_le.mpr hlt)
      · exact absurd hpt.2 (not_le.mpr hgt))]
    rw [if_neg (by
      rintro (hlt | hgt)
      · exact absurd hmass.1 (not_le.mpr hlt)
      · exact absurd hmass.2 (not_le.mpr hgt))]
    have hj : sumJetP4 e = none := by unfold sumJetP4; rw [hjets]; rfl
    cases hwl : e.weights with
    | nil => exact absurd hwl hw
    | cons w ws => simp only [hj]
  refine ⟨hpe, ?_⟩
  unfold foldEvents
  rw [hpe]
  rfl

/-- C9 witness: `evC9` (two leptons, no parton) crashes the loop. -/
theorem C9_no_parton_crash_witness :
    processEvent Kc2 setup_histograms evC9 = Except.error AErr.noneDeref ∧
    foldEvents Kc2 setup_histograms [evC9] = Except.error AErr.noneDeref :=
  C9_no_parton_crash Kc2 setup_histograms evC9 ⟨2, 0, 0, 2⟩ [] (by decide)
    (by decide) (by decide) (by decide) (by decide) (by decide)

/-- C7: a successful `analyze` run returns a collection whose key list is
exactly the 16 observable names of `setup_histograms`, and each loop
iteration preserves the key list (fills only existing histograms). -/
theorem C7_fixed_key_set (K : LKin) (es : List LHEEvent) (h : Hists)
    (hok : analyze K es = Except.ok h) :
    h.map Prod.fst = observableNames ∧ observableNames.length = 16 ∧
    ∀ (K2 : LKin) (h0 : Hists) (e : LHEEvent) (h' : Hists),
      processEvent K2 h0 e = Except.ok h' →
        h'.map Prod.fst = h0.map Prod.fst :=
  ⟨(keys_foldEvents hok).trans keys_setup, rfl,
   fun _ _ _ _ hpe => keys_processEvent hpe⟩

/-- C7 witness: the run on the one-event input `[evC2]`. -/
theorem C7_fixed_key_set_witness :
    resC2.map Prod.fst = observableNames ∧ observableNames.length = 16 ∧
    ∀ (K2 : LKin) (h0 : Hists) (e : LHEEvent) (h' : Hists),
      processEvent K2 h0 e = Except.ok h' →
        h'.map Prod.fst = h0.map Prod.fst :=
  C7_fixed_key_set Kc2 [evC2] resC2 (by decide)

/-- C6: both event-processing functions are deterministic: two runs on
identical inputs produce identical outputs (hence identical fill records
in every histogram). -/
theorem C6_determinism (K : LKin) (es : List LHEEvent)
    (o1 o2 : Except AErr Hists) (VK : VKin) (ds : String)
    (chunk : List VEvent) (q1 q2 : Except PErr POutput)
    (h1 : analyze K es = o1) (h2 : analyze K es = o2)
    (h3 : processChunk VK ds chunk = q1) (h4 : processChunk VK ds chunk = q2) :
    o1 = o2 ∧ q1 = q2 :=
  ⟨h1.symm.trans h2, h3.symm.trans h4⟩

/-- C6 witness: two runs on `[evC2]` resp. `[evC1]`. -/
theorem C6_determinism_witness :
    (Except.ok resC2 : Except AErr Hists) = Except.ok resC2 ∧
    (Except.ok resC1 : Except PErr POutput) = Except.ok resC1 :=
  C6_determinism Kc2 [evC2] _ _ KC "ds" [evC1] _ _ (by decide) (by decide)
    (by decide) (by decide)

/-- C8: no exception handler exists in either event-processing function:
an error raised while processing an event surfaces unchanged as the
result of `analyze` (later events are never processed), and a failing
PDF column access makes `Processor.process` return its error. -/
theorem C8_no_handler (K : LKin) (pre post : List LHEEvent) (e : LHEEvent)
    (h : Hists) (err : AErr) (VK : VKin) (ds : String) (chunk : List VEvent)
    (hpre : foldEvents K setup_histograms pre = Except.ok h)
    (hpe : processEvent K h e = Except.error err) :
    analyze K (pre ++ e :: post) = Except.error err ∧
    (pdfOk VK chunk = false →
      processChunk VK ds chunk = Except.error PErr.indexOutOfRange) := by
  constructor
  · show foldEvents K setup_histograms (pre ++ e :: post) = Except.error err
    rw [foldEvents_append, hpre]
    show foldEvents K h (e :: post) = Except.error err
    unfold foldEvents
    rw [hpe]
    rfl
  · intro hbad
    simp [processChunk, hbad]

/-- C8 witness: an empty weight list raises `IndexError` out of
`analyze`; a selected event with one PDF weight makes the column access
of `process` fail. -/
theorem C8_no_handler_witness :
    analyze Kc2 ([] ++ evW8 :: []) = Except.error AErr.indexErr ∧
    (pdfOk KC [evShortPdf] = false →
      processChunk KC "ds" [evShortPdf] = Except.error PErr.indexOutOfRange) :=
  C8_no_handler Kc2 [] [] evW8 setup_histograms AErr.indexErr KC "ds"
    [evShortPdf] rfl (by decide)

/-- C1 counterexample: on the fully selected one-event chunk `[evC1]`
with `genWeight = 1` and all PDF weights `1`, the claim asks the
`PDFwei = "0"` fill of `dilep_pt` to carry weight
`genWeight * LHEPdfWeight[:,0] = 1`, but the code fills it with weight
`2` (the source computes `PdfWei = 2*selected_events.LHEPdfWeight[:,p]`). -/
theorem C1_counterexample_pdf_weight_doubled :
    evC1 ∈ selectedEvents KC [evC1] ∧
    (processChunk KC "ds" [evC1]).toOption.map
      (fun o => o.dilepPtFills.filter (fun t => t.1 == "0")) =
      some [("0", 100, 2)] ∧
    evC1.genWeight * evC1.LHEPdfWeight.getD 0 0 = 1 ∧
    ¬((2 : ℚ) = 1) := by
  refine ⟨by decide, by decide, by decide, by decide⟩

/-- C1 amended: for every fully selected event of a successfully
processed chunk and every PDF index `p < 32`, the `dilep_pt` histogram
receives under category `str(p)` a fill at the event's dimuon pt with
weight `genWeight * (2 * LHEPdfWeight[:,p])` — the nominal weight times
twice the p-th PDF systematic weight. -/
theorem C1_amended_pdf_fill_weight (K : VKin) (ds : String)
    (chunk : List VEvent) (out : POutput) (p : Nat) (e : VEvent)
    (hok : processChunk K ds chunk = Except.ok out) (hp : p < 32)
    (he : e ∈ selectedEvents K chunk) :
    (toString p, (eventVpt K e).headD 0,
      e.genWeight * (2 * e.LHEPdfWeight.getD p 0)) ∈ out.dilepPtFills := by
  unfold processChunk at hok
  split at hok
  · cases hok
    show _ ∈ defaultDilepPt K chunk ++ pdfDilepPt K chunk
    refine List.mem_append_right _ ?_
    unfold pdfDilepPt
    refine flatList_mem (List.mem_range.mpr hp) ?_
    have hall : ∀ e' ∈ selectedEvents K chunk, (good_dimuons K e').length = 1 :=
      fun _ he' => selected_dimuon_count he'
    rw [flatList_eventVpt _ hall, zip_map_map, List.map_map]
    exact List.mem_map.mpr ⟨e, he, rfl⟩
  · cases hok

/-- C1 amended witness: the `p = 0` fill of the chunk `[evC1]`. -/
theorem C1_amended_pdf_fill_weight_witness :
    (toString 0, (eventVpt KC evC1).headD 0,
      evC1.genWeight * (2 * evC1.LHEPdfWeight.getD 0 0)) ∈
      resC1.dilepPtFills :=
  C1_amended_pdf_fill_weight KC "ds" [evC1] resC1 0 evC1 (by decide)
    (by decide) (by decide)

/-- C4: for every histogram collection, `plot` writes one image per
observable (for the processor output, per entry that is a coffea `Hist`)
followed by the serialized collection file, and `plotFromPickles` on the
dumped collection re-renders exactly the same image writes and does not
rewrite the collection file. -/
theorem C4_plot_roundtrip (outdir : String) (h : Hists) (c : VColl) :
    lhe_plot outdir h false =
      lhe_plotFromPickles outdir (lpklDump h) ++
        [LWrite.pickleFile (outdir ++ "/Pickles.pkl") (lpklDump h)] ∧
    (lhe_plotFromPickles outdir (lpklDump h)).countP
      (fun w => w.isImage) = h.length ∧
    (lhe_plotFromPickles outdir (lpklDump h)).all (fun w => w.isImage) = true ∧
    vplus_plot outdir c false =
      vplus_plotFromPickles outdir (vpklDump c) ++
        [VWrite.pickleFile (outdir ++ "/Pickles.pkl") (vpklDump c)] ∧
    (vplus_plotFromPickles outdir (vpklDump c)).countP
      (fun w => w.isImage) = (c.filter (fun p => p.2.isHist)).length ∧
    (vplus_plotFromPickles outdir (vpklDump c)).all
      (fun w => w.isImage) = true := by
  refine ⟨?_, ?_, ?_, ?_, ?_, ?_⟩
  · simp [lhe_plot, lhe_plotFromPickles, lpklDump, lpklLoad]
  · rw [lhe_plotFromPickles]
    show ((lpklLoad (lpklDump h)).map _ ++ []).countP _ = h.length
    rw [List.append_nil, List.countP_map]
    exact List.countP_eq_length.mpr (fun a _ => rfl)
  · rw [lhe_plotFromPickles]
    show ((lpklLoad (lpklDump h)).map _ ++ []).all _ = true
    rw [List.append_nil]
    refine List.all_eq_true.mpr (fun a ha => ?_)
    rcases List.mem_map.mp ha with ⟨b, hb, rfl⟩
    rfl
  · simp [vplus_plot, vplus_plotFromPickles, vpklDump, vpklLoad]
  · rw [vplus_plotFromPickles]
    show (((vpklLoad (vpklDump c)).filter _).map _ ++ []).countP _ =
      (c.filter (fun p => p.2.isHist)).length
    rw [List.append_nil, List.countP_map]
    exact List.countP_eq_length.mpr (fun a _ => rfl)
  · rw [vplus_plotFromPickles]
    show (((vpklLoad (vpklDump c)).filter _).map _ ++ []).all _ = true
    rw [List.append_nil]
    refine List.all_eq_true.mpr (fun a ha => ?_)
    rcases List.mem_map.mp ha with ⟨b, hb, rfl⟩
    rfl

/-- C5 counterexample: two option settings of `vplusjetPDFsyst.py` that
differ in every flag select the same hardcoded ntuple input directories,
so for that script no command-line flag selects the ntuple input. -/
theorem C5_counterexample_hardcoded_input :
    vplusNtupleDirs ⟨"plotsA", none⟩ = vplusNtupleDirs ⟨"plotsB", some "h.pkl"⟩ ∧
    VOpts.mk "plotsA" none ≠ VOpts.mk "plotsB" (some "h.pkl") :=
  ⟨rfl, by decide⟩

/-- C5 amended: for `lhePlot.py` the command line selects the input file
and the output directory; for `vplusjetPDFsyst.py` it selects the output
directory and an optional pickle file to re-plot, while the ntuple input
directories are hardcoded constants independent of every option. -/
theorem C5_amended_cli_selection (o : LheOpts) (v v' : VOpts) :
    lheMainInput o = o.inputfile ∧ lheMainOutdir o = o.outdir ∧
    vplusMainOutdir v = v.outdir ∧ vplusMainPkl v = v.pkl ∧
    vplusNtupleDirs v = vplusNtupleDirs v' :=
  ⟨rfl, rfl, rfl, rfl, rfl⟩
